import Mathlib

/-!
Verification of the Serenity voice-call front end's real-time audio pipeline
and call-state machine, shallowly embedded from `src/audioUtils.ts` and the
call logic in `src/App.tsx`.  Machine floats are modelled as exact rationals,
byte buffers as lists of naturals, and the browser's `btoa`/`atob` host
functions as an executable base64 codec.
-/

deriving instance DecidableEq for Except

namespace Serenity

/-- Base64 alphabet, index to character (the alphabet used by the `btoa`
host function that `AudioProcessor.arrayBufferToBase64` calls). -/
def indexToChar (n : Nat) : Char :=
  if n < 26 then Char.ofNat (65 + n)
  else if n < 52 then Char.ofNat (97 + (n - 26))
  else if n < 62 then Char.ofNat (48 + (n - 52))
  else if n = 62 then '+'
  else '/'

/-- Base64 alphabet, character to index; 64 marks an invalid character. -/
def charToIndex (c : Char) : Nat :=
  if 65 ≤ c.toNat ∧ c.toNat ≤ 90 then c.toNat - 65
  else if 97 ≤ c.toNat ∧ c.toNat ≤ 122 then c.toNat - 97 + 26
  else if 48 ≤ c.toNat ∧ c.toNat ≤ 57 then c.toNat - 48 + 52
  else if c = '+' then 62
  else if c = '/' then 63
  else 64

/-- Base64 encoding of a byte sequence, as performed by the `btoa` host
function: groups of three bytes become four alphabet characters, with
`'='` padding for one- and two-byte tails. -/
def base64EncodeList : List Nat → List Char
  | [] => []
  | [b1] =>
      [indexToChar (b1 / 4), indexToChar (b1 % 4 * 16), '=', '=']
  | [b1, b2] =>
      [indexToChar (b1 / 4), indexToChar (b1 % 4 * 16 + b2 / 16),
       indexToChar (b2 % 16 * 4), '=']
  | b1 :: b2 :: b3 :: rest =>
      indexToChar (b1 / 4) :: indexToChar (b1 % 4 * 16 + b2 / 16) ::
      indexToChar (b2 % 16 * 4 + b3 / 64) :: indexToChar (b3 % 64) ::
      base64EncodeList rest

/-- Base64 decoding, as performed by the `atob` host function: four
characters yield three bytes, `'='` padding marks one- or two-byte tails,
and malformed input is rejected (`atob` throws; modelled as `none`). -/
def base64DecodeList : List Char → Option (List Nat)
  | [] => some []
  | c1 :: c2 :: c3 :: c4 :: rest =>
      let n1 := charToIndex c1
      let n2 := charToIndex c2
      if n1 < 64 then
        if n2 < 64 then
          if c3 = '=' then
            if c4 = '=' ∧ rest = [] then some [n1 * 4 + n2 / 16] else none
          else
            let n3 := charToIndex c3
            if n3 < 64 then
              if c4 = '=' then
                if rest = [] then
                  some [n1 * 4 + n2 / 16, n2 % 16 * 16 + n3 / 4]
                else none
              else
                let n4 := charToIndex c4
                if n4 < 64 then
                  match base64DecodeList rest with
                  | some bs =>
                      some ((n1 * 4 + n2 / 16) :: (n2 % 16 * 16 + n3 / 4) ::
                            (n3 % 4 * 64 + n4) :: bs)
                  | none => none
                else none
            else none
        else none
      else none
  | _ => none

/-! ## PCM codec (audioUtils.ts, `AudioProcessor.floatTo16BitPCM` and the
decode loop of `AudioPlayer.playChunk`) -/

/-- Truncation toward zero: the integer conversion JavaScript applies to the
float argument of `DataView.setInt16`. -/
def truncToInt (q : ℚ) : ℤ := if q < 0 then ⌈q⌉ else ⌊q⌋

/-- One sample of `AudioProcessor.floatTo16BitPCM` (audioUtils.ts:59-60):
clamp to [-1,1], scale negatives by 0x8000 and non-negatives by 0x7FFF,
convert to a 16-bit integer. -/
def encodeSample (x : ℚ) : ℤ :=
  let s := max (-1) (min 1 x)
  truncToInt (if s < 0 then s * 32768 else s * 32767)

/-- The unsigned 16-bit pattern `DataView.setInt16` stores for value `n`. -/
def uint16OfInt (n : ℤ) : ℕ := (n % 65536).toNat

/-- `AudioProcessor.floatTo16BitPCM` (audioUtils.ts:55-63) as the byte list
of the produced `ArrayBuffer` (little-endian sample pairs). -/
def floatTo16BitPCM : List ℚ → List ℕ
  | [] => []
  | x :: rest =>
      let m := uint16OfInt (encodeSample x)
      m % 256 :: m / 256 :: floatTo16BitPCM rest

/-- `AudioProcessor.arrayBufferToBase64` (audioUtils.ts:65-73): build the
binary string from the buffer's bytes and apply the `btoa` host function. -/
def arrayBufferToBase64 (bytes : List ℕ) : String :=
  String.mk (base64EncodeList bytes)

/-- The per-frame encoding path of `AudioProcessor.onaudioprocess`
(audioUtils.ts:24-29): `floatTo16BitPCM` then `arrayBufferToBase64`. -/
def encodeFrame (frame : List ℚ) : String :=
  arrayBufferToBase64 (floatTo16BitPCM frame)

/-- The `atob` host function as used by `AudioPlayer.playChunk`: base64 text
to the char codes of the binary string (`none` models the thrown
`InvalidCharacterError`). -/
def atob (s : String) : Option (List ℕ) :=
  base64DecodeList s.toList

/-- The spec's error taxonomy for malformed inbound audio; `misaligned` is
the RangeError thrown by the `Int16Array` view when the byte length is not a
multiple of 2. -/
inductive DecodeError
  | invalidBase64
  | misaligned
deriving DecidableEq

/-- Reinterpret two little-endian bytes as a signed 16-bit integer, as the
`Int16Array` view over the `Uint8Array` buffer does (audioUtils.ts:98). -/
def int16OfPair (b0 b1 : ℕ) : ℤ :=
  let u := b0 + 256 * b1
  if u < 32768 then (u : ℤ) else (u : ℤ) - 65536

/-- All complete little-endian sample pairs of a byte list. -/
def pcmOfBytes : List ℕ → List ℤ
  | b0 :: b1 :: rest => int16OfPair b0 b1 :: pcmOfBytes rest
  | _ => []

/-- The decode phase of `AudioPlayer.playChunk` (audioUtils.ts:91-102):
base64-decode, fill a `Uint8Array` (entries stored mod 256), view it as an
`Int16Array` — which throws a RangeError (the spec's DecodeError) when the
byte length is odd — and scale each sample by 1/32768. -/
def decodeChunk (base64Data : String) : Except DecodeError (List ℚ) :=
  match atob base64Data with
  | none => .error .invalidBase64
  | some codes =>
      let bytes := codes.map (· % 256)
      if bytes.length % 2 = 0 then
        .ok ((pcmOfBytes bytes).map fun n : ℤ => (n : ℚ) / 32768)
      else .error .misaligned

/-! ## Playback pipeline (audioUtils.ts, `AudioPlayer`) -/

/-- State of an `AudioPlayer`: the scheduling cursor `nextStartTime`
(audioUtils.ts:78), the list of (start time, duration) pairs of sources
scheduled on the current `AudioContext`, and the fixed sample rate. -/
structure AudioPlayerState where
  sampleRate : ℚ
  nextStartTime : ℚ
  scheduled : List (ℚ × ℚ)
deriving DecidableEq

/-- A fresh `AudioPlayer` (audioUtils.ts:81-86). -/
def AudioPlayer.new (rate : ℚ) : AudioPlayerState :=
  { sampleRate := rate, nextStartTime := 0, scheduled := [] }

/-- The cursor/clock comparison and advance of audioUtils.ts:111-117:
returns the chosen start time and the advanced cursor. -/
def scheduleChunk (cursor currentTime dur : ℚ) : ℚ × ℚ :=
  let start := if cursor < currentTime then currentTime else cursor
  (start, start + dur)

/-- `AudioPlayer.playChunk` (audioUtils.ts:88-118): decode the chunk
(propagating the decode exception), build a buffer of duration
`length / sampleRate`, schedule it at `max(nextStartTime, currentTime)`,
and advance the cursor by the duration.  Returns the new player state and
the scheduled start time. -/
def AudioPlayer.playChunk (st : AudioPlayerState) (currentTime : ℚ)
    (base64Data : String) : Except DecodeError (AudioPlayerState × ℚ) :=
  match decodeChunk base64Data with
  | .error e => .error e
  | .ok floatData =>
      let dur := (floatData.length : ℚ) / st.sampleRate
      let p := scheduleChunk st.nextStartTime currentTime dur
      .ok ({ st with
              nextStartTime := p.2,
              scheduled := st.scheduled ++ [(p.1, dur)] }, p.1)

/-- `AudioPlayer.stop` (audioUtils.ts:131-138): close the context — which
silences and discards every scheduled source — create a fresh context at the
same rate, and reset `nextStartTime` to 0. -/
def AudioPlayer.stop (st : AudioPlayerState) : AudioPlayerState :=
  { sampleRate := st.sampleRate, nextStartTime := 0, scheduled := [] }

/-- Iterated scheduling: the start times produced by a sequence of
`playChunk` scheduling steps, given the clock value and buffer duration of
each call. -/
def runSchedule (cursor : ℚ) : List (ℚ × ℚ) → List ℚ
  | [] => []
  | (t, d) :: rest =>
      (scheduleChunk cursor t d).1 :: runSchedule (scheduleChunk cursor t d).2 rest

/-! ## Capture pipeline (audioUtils.ts, `AudioProcessor`) -/

/-- The fields of `AudioProcessor` that `getVolume`/`stop` consult: whether
`this.analyser` is non-null and whether the context has been closed.  `stop`
(audioUtils.ts:47-53) disconnects the nodes and closes the context but never
clears `this.analyser`. -/
structure AudioProcessorState where
  hasAnalyser : Bool
  contextClosed : Bool
deriving DecidableEq

/-- A constructed, not yet started `AudioProcessor` (audioUtils.ts:5-12):
every node field is null. -/
def AudioProcessor.initial : AudioProcessorState :=
  { hasAnalyser := false, contextClosed := false }

/-- `AudioProcessor.start` (audioUtils.ts:14-34): creates the context and
the analyser. -/
def AudioProcessor.start (_st : AudioProcessorState) : AudioProcessorState :=
  { hasAnalyser := true, contextClosed := false }

/-- `AudioProcessor.stop` (audioUtils.ts:47-53): disconnects and closes, but
leaves `this.analyser` set. -/
def AudioProcessor.stop (st : AudioProcessorState) : AudioProcessorState :=
  { st with contextClosed := true }

/-- `AudioProcessor.getVolume` (audioUtils.ts:36-45): 0 when the analyser is
null, otherwise the mean of the byte-frequency data the host's
`getByteFrequencyData` fills in (`hostData`; after `close()` the host is
free to keep reporting the last analysis frame). -/
def AudioProcessor.getVolume (st : AudioProcessorState) (hostData : List ℕ) : ℚ :=
  if st.hasAnalyser = false then 0
  else ((hostData.map fun b : ℕ => (b : ℚ)).sum) / hostData.length

/-! ## Session controller (App.tsx, lines 420-660) -/

/-- The call status values of `App.tsx` (line 436). -/
inductive CallStatus
  | idle
  | ringing
  | connecting
  | listening
  | speaking
deriving DecidableEq

/-- The session-relevant component state of `App.tsx`. -/
structure SessionState where
  status : CallStatus
  isConnected : Bool
  isRecording : Bool
  transcript : String
deriving DecidableEq

/-- Side effects the session controller requests from the pipelines and the
remote connection. -/
inductive Effect
  | playerPlay (data : String)
  | playerStop
  | processorStop
  | sessionClose
  | sentimentRequest (text : String)
deriving DecidableEq

/-- One inbound server message as destructured by `onmessage`
(App.tsx:520-550): optional inline audio data, the text parts, and the
`interrupted` / `turnComplete` flags. -/
structure LiveMessage where
  audioData : Option String
  textParts : List String
  interrupted : Bool
  turnComplete : Bool
deriving DecidableEq

/-- Drop leading whitespace characters from a character list. -/
def dropLeadingWs : List Char → List Char
  | [] => []
  | c :: rest => if c.isWhitespace then dropLeadingWs rest else c :: rest

/-- The JavaScript `String.prototype.trim` host function used at
App.tsx:532: remove whitespace from both ends of the string. -/
def jsTrim (s : String) : String :=
  String.mk ((dropLeadingWs (dropLeadingWs s.toList).reverse).reverse)

/-- `analyzeSentiment` (App.tsx:569-571): returns without a request when the
text is empty or shorter than 5 characters. -/
def analyzeSentiment (text : String) : List Effect :=
  if text.length < 5 then [] else [Effect.sentimentRequest text]

/-- One iteration of the text-part loop (App.tsx:529-539): parts with text,
when the session was listening or the message carried no audio, are trimmed
and, if non-empty, stored as the transcript and sent to sentiment analysis.
`entryStatus` is the status value the handler closure reads (it is not
changed by the `setStatus` calls earlier in the same message). -/
def handleTextPart (entryStatus : CallStatus) (hasAudio : Bool)
    (st : SessionState) (p : String) : SessionState × List Effect :=
  if p ≠ "" then
    if entryStatus = CallStatus.listening ∨ hasAudio = false then
      let text := jsTrim p
      if text ≠ "" then ({ st with transcript := text }, analyzeSentiment text)
      else (st, [])
    else (st, [])
  else (st, [])

/-- The tail of `onmessage` after the audio branch (App.tsx:527-549): the
text-part loop, then the `interrupted` check (player stop and status
listening), then the `turnComplete` check (status listening). -/
def processRest (st : SessionState) (entryStatus : CallStatus)
    (hasAudio : Bool) (m : LiveMessage) (effs : List Effect) :
    SessionState × List Effect :=
  let r := m.textParts.foldl
    (fun acc p =>
      let s := handleTextPart entryStatus hasAudio acc.1 p
      (s.1, acc.2 ++ s.2))
    (st, effs)
  let r2 := if m.interrupted
    then ({ r.1 with status := CallStatus.listening }, r.2 ++ [Effect.playerStop])
    else r
  if m.turnComplete
    then ({ r2.1 with status := CallStatus.listening }, r2.2)
    else r2

/-- `onmessage` (App.tsx:520-550): when inline audio is present the status
is set to speaking and `playChunk` is invoked — if its decode throws, the
async handler aborts there and the rest of the message is skipped —
then the text parts and the `interrupted`/`turnComplete` flags are
processed. -/
def handleMessage (st : SessionState) (m : LiveMessage) :
    SessionState × List Effect :=
  match m.audioData with
  | some d =>
      let st1 := { st with status := CallStatus.speaking }
      match decodeChunk d with
      | .error _ => (st1, [])
      | .ok _ => processRest st1 st.status true m [Effect.playerPlay d]
  | none => processRest st st.status false m []

/-- `stopSession` (App.tsx:623-632): stop both pipelines, close the
connection, clear the flags, status idle. -/
def stopSession (st : SessionState) : SessionState × List Effect :=
  ({ status := CallStatus.idle, isConnected := false, isRecording := false,
     transcript := st.transcript },
   [Effect.processorStop, Effect.playerStop, Effect.sessionClose])

/-- The inbound events that drive the session state machine, one per
handler in `startSession`/`stopSession` (App.tsx:491-632).  `userStart` is
`startSession` with an agent selected; `ringElapsed` is the 2-second ringing
timeout firing; `opened` is the connection's `onopen`. -/
inductive SessionEvent
  | userStart
  | ringElapsed
  | opened
  | connectFailed
  | message (m : LiveMessage)
  | remoteClosed
  | remoteError
  | userEnd

/-- The session transition function assembled from the handlers in
App.tsx:491-632. -/
def handleEvent (st : SessionState) : SessionEvent → SessionState × List Effect
  | SessionEvent.userStart => ({ st with status := CallStatus.ringing }, [])
  | SessionEvent.ringElapsed => ({ st with status := CallStatus.connecting }, [])
  | SessionEvent.opened =>
      ({ st with
          isConnected := true,
          status := CallStatus.listening,
          isRecording := true }, [])
  | SessionEvent.connectFailed => ({ st with status := CallStatus.idle }, [])
  | SessionEvent.message m => handleMessage st m
  | SessionEvent.remoteClosed => stopSession st
  | SessionEvent.remoteError => stopSession st
  | SessionEvent.userEnd => stopSession st

/-! ## Helper lemmas -/

theorem charToIndex_indexToChar : ∀ n < 64, charToIndex (indexToChar n) = n := by
  decide

theorem indexToChar_ne_pad : ∀ n < 64, indexToChar n ≠ '=' := by
  decide

theorem base64_roundtrip (bs : List Nat) (h : ∀ b ∈ bs, b < 256) :
    base64DecodeList (base64EncodeList bs) = some bs := by
  induction bs using base64EncodeList.induct with
  | case1 => simp [base64EncodeList, base64DecodeList]
  | case2 b1 =>
      have hb1 : b1 < 256 := h b1 (by simp)
      have h1 : b1 / 4 < 64 := by omega
      have h2 : b1 % 4 * 16 < 64 := by omega
      simp only [base64EncodeList, base64DecodeList,
        charToIndex_indexToChar _ h1, charToIndex_indexToChar _ h2,
        if_pos h1, if_pos h2, if_pos rfl, and_self, if_true, if_pos (And.intro rfl rfl)]
      simp only [Option.some.injEq, List.cons.injEq, and_true]
      omega
  | case3 b1 b2 =>
      have hb1 : b1 < 256 := h b1 (by simp)
      have hb2 : b2 < 256 := h b2 (by simp)
      have h1 : b1 / 4 < 64 := by omega
      have h2 : b1 % 4 * 16 + b2 / 16 < 64 := by omega
      have h3 : b2 % 16 * 4 < 64 := by omega
      simp only [base64EncodeList, base64DecodeList,
        charToIndex_indexToChar _ h1, charToIndex_indexToChar _ h2,
        charToIndex_indexToChar _ h3,
        if_pos h1, if_pos h2, if_pos h3,
        if_neg (indexToChar_ne_pad _ h3), if_pos rfl, if_true]
      simp only [Option.some.injEq, List.cons.injEq, and_true]
      omega
  | case4 b1 b2 b3 rest ih =>
      have hb1 : b1 < 256 := h b1 (by simp)
      have hb2 : b2 < 256 := h b2 (by simp)
      have hb3 : b3 < 256 := h b3 (by simp)
      have hrest : ∀ b ∈ rest, b < 256 := by
        intro b hb; exact h b (by simp [hb])
      have h1 : b1 / 4 < 64 := by omega
      have h2 : b1 % 4 * 16 + b2 / 16 < 64 := by omega
      have h3 : b2 % 16 * 4 + b3 / 64 < 64 := by omega
      have h4 : b3 % 64 < 64 := by omega
      simp only [base64EncodeList, base64DecodeList,
        charToIndex_indexToChar _ h1, charToIndex_indexToChar _ h2,
        charToIndex_indexToChar _ h3, charToIndex_indexToChar _ h4,
        if_pos h1, if_pos h2, if_pos h3, if_pos h4,
        if_neg (indexToChar_ne_pad _ h3), if_neg (indexToChar_ne_pad _ h4),
        ih hrest]
      simp only [Option.some.injEq, List.cons.injEq, and_true]
      refine ⟨by omega, by omega, by omega⟩

/-! ### Codec lemmas -/

theorem uint16OfInt_lt (n : ℤ) : uint16OfInt n < 65536 := by
  unfold uint16OfInt
  omega

theorem floatTo16BitPCM_lt_256 (frame : List ℚ) :
    ∀ b ∈ floatTo16BitPCM frame, b < 256 := by
  induction frame with
  | nil => simp [floatTo16BitPCM]
  | cons x rest ih =>
      have h := uint16OfInt_lt (encodeSample x)
      simp only [floatTo16BitPCM, List.mem_cons]
      rintro b (rfl | rfl | hb)
      · omega
      · omega
      · exact ih b hb

theorem floatTo16BitPCM_length (frame : List ℚ) :
    (floatTo16BitPCM frame).length = 2 * frame.length := by
  induction frame with
  | nil => rfl
  | cons x rest ih => simp [floatTo16BitPCM, ih]; omega

theorem encodeSample_bounds (x : ℚ) :
    -32768 ≤ encodeSample x ∧ encodeSample x ≤ 32767 := by
  simp only [encodeSample, truncToInt]
  set s := max (-1 : ℚ) (min 1 x) with hs
  have hlo : (-1 : ℚ) ≤ s := le_max_left _ _
  have hhi : s ≤ 1 := by
    apply max_le
    · norm_num
    · exact min_le_left _ _
  by_cases hneg : s < 0
  · have hb : s * 32768 < 0 := by nlinarith
    have hb2 : (-32768 : ℚ) ≤ s * 32768 := by nlinarith
    rw [if_pos hneg, if_pos hb]
    constructor
    · have h2 : ((-32768 : ℤ) : ℚ) ≤ (⌈s * 32768⌉ : ℚ) :=
        le_trans (by exact_mod_cast hb2) (Int.le_ceil _)
      exact_mod_cast h2
    · have h3 : ⌈s * 32768⌉ ≤ (0 : ℤ) := Int.ceil_le.mpr (by exact_mod_cast hb.le)
      omega
  · push_neg at hneg
    have hb : (0 : ℚ) ≤ s * 32767 := by nlinarith
    have hb2 : s * 32767 ≤ 32767 := by nlinarith
    rw [if_neg (not_lt.mpr hneg), if_neg (not_lt.mpr hb)]
    constructor
    · have h4 : (0 : ℤ) ≤ ⌊s * 32767⌋ := Int.floor_nonneg.mpr hb
      omega
    · have h5 : ⌊s * 32767⌋ ≤ ⌊(32767 : ℚ)⌋ := Int.floor_le_floor hb2
      have h6 : ⌊(32767 : ℚ)⌋ = 32767 := by norm_num
      omega

theorem int16OfPair_uint16 (n : ℤ) (h1 : -32768 ≤ n) (h2 : n ≤ 32767) :
    int16OfPair (uint16OfInt n % 256) (uint16OfInt n / 256) = n := by
  simp only [int16OfPair, uint16OfInt]
  split <;> omega

theorem pcmOfBytes_floatTo16BitPCM (frame : List ℚ) :
    pcmOfBytes (floatTo16BitPCM frame) = frame.map encodeSample := by
  induction frame with
  | nil => rfl
  | cons x rest ih =>
      obtain ⟨h1, h2⟩ := encodeSample_bounds x
      simp only [floatTo16BitPCM, pcmOfBytes, List.map_cons, ih,
        int16OfPair_uint16 (encodeSample x) h1 h2]

theorem map_mod_256_of_lt (bs : List ℕ) (h : ∀ b ∈ bs, b < 256) :
    bs.map (· % 256) = bs := by
  induction bs with
  | nil => rfl
  | cons b rest ih =>
      simp only [List.map_cons, List.cons.injEq]
      exact ⟨Nat.mod_eq_of_lt (h b (by simp)),
             ih fun c hc => h c (by simp [hc])⟩

/-- Full decode-of-encode identity at the integer-sample level. -/
theorem decodeChunk_encodeFrame (frame : List ℚ) :
    decodeChunk (encodeFrame frame) =
      .ok (frame.map fun x => ((encodeSample x : ℚ) / 32768)) := by
  unfold decodeChunk encodeFrame arrayBufferToBase64 atob
  have htl : (String.mk (base64EncodeList (floatTo16BitPCM frame))).toList =
      base64EncodeList (floatTo16BitPCM frame) := rfl
  rw [htl, base64_roundtrip _ (floatTo16BitPCM_lt_256 frame)]
  simp only [map_mod_256_of_lt _ (floatTo16BitPCM_lt_256 frame)]
  rw [if_pos (by rw [floatTo16BitPCM_length]; omega)]
  rw [pcmOfBytes_floatTo16BitPCM, List.map_map]
  rfl

/-- Quantization error of one encoded sample: at most 2/32768 (negative
samples stay within 1/32768; non-negative ones, scaled by 0x7FFF but decoded
by 1/32768, can err up to (x+1)/32768). -/
theorem encodeSample_close (x : ℚ) (h1 : -1 ≤ x) (h2 : x ≤ 1) :
    |(encodeSample x : ℚ) / 32768 - x| ≤ 2 / 32768 := by
  have hclamp : max (-1 : ℚ) (min 1 x) = x := by
    rw [min_eq_right h2, max_eq_right h1]
  simp only [encodeSample, truncToInt, hclamp]
  by_cases hneg : x < 0
  · rw [if_pos hneg, if_pos (show x * 32768 < 0 by nlinarith)]
    have hle : x * 32768 ≤ (⌈x * 32768⌉ : ℚ) := Int.le_ceil _
    have hlt : (⌈x * 32768⌉ : ℚ) < x * 32768 + 1 := Int.ceil_lt_add_one _
    rw [abs_le]
    constructor <;> [nlinarith; nlinarith]
  · push_neg at hneg
    rw [if_neg (not_lt.mpr hneg),
      if_neg (not_lt.mpr (mul_nonneg hneg (by norm_num)))]
    have hle : (⌊x * 32767⌋ : ℚ) ≤ x * 32767 := Int.floor_le _
    have hlt : x * 32767 < (⌊x * 32767⌋ : ℚ) + 1 := Int.lt_floor_add_one _
    rw [abs_le]
    constructor <;> [nlinarith; nlinarith]

theorem scheduleChunk_fst_ge_cursor (c t d : ℚ) : c ≤ (scheduleChunk c t d).1 := by
  simp only [scheduleChunk]
  split
  · exact le_of_lt (by assumption)
  · exact le_refl c

theorem scheduleChunk_fst_ge_time (c t d : ℚ) : t ≤ (scheduleChunk c t d).1 := by
  simp only [scheduleChunk]
  split
  · exact le_refl t
  · exact le_of_not_lt (by assumption)

theorem scheduleChunk_snd_eq (c t d : ℚ) :
    (scheduleChunk c t d).2 = (scheduleChunk c t d).1 + d := rfl

/-! ## Claim theorems -/

/-- Claim C1, amended: codec round-trip. For every frame of samples in
[-1,1], decoding the encoded frame (base64 decode, reinterpret as signed
16-bit little-endian, divide by 32768) reproduces each original sample
within 2/32768 absolute error (the original 1/32768 bound fails because
non-negative samples are scaled by 0x7FFF on encode but divided by 0x8000
on decode). -/
theorem claim_c1_roundtrip (frame : List ℚ)
    (h : ∀ x ∈ frame, -1 ≤ x ∧ x ≤ 1) :
    decodeChunk (encodeFrame frame) =
      .ok (frame.map fun x => ((encodeSample x : ℚ) / 32768)) ∧
    ∀ x ∈ frame, |(encodeSample x : ℚ) / 32768 - x| ≤ 2 / 32768 := by
  refine ⟨decodeChunk_encodeFrame frame, ?_⟩
  intro x hx
  exact encodeSample_close x (h x hx).1 (h x hx).2

/-- Witness for C1 at the one-sample frame [1/2]. -/
theorem claim_c1_roundtrip_witness :
    (decodeChunk (encodeFrame [(1 : ℚ) / 2]) =
      .ok ([(1 : ℚ) / 2].map fun x => ((encodeSample x : ℚ) / 32768)) ∧
    ∀ x ∈ [(1 : ℚ) / 2], |(encodeSample x : ℚ) / 32768 - x| ≤ 2 / 32768) :=
  claim_c1_roundtrip [(1 : ℚ) / 2] (by norm_num)

/-- Counterexample to C1 as stated: for the in-range sample 49151/65536 the
round-trip error is 3/65536, which exceeds the claimed 1/32768 bound. -/
theorem claim_c1_counterexample :
    decodeChunk (encodeFrame [(49151 : ℚ) / 65536]) =
      .ok [(12287 : ℚ) / 16384] ∧
    ¬ |(12287 : ℚ) / 16384 - (49151 : ℚ) / 65536| ≤ 1 / 32768 := by
  have hE : encodeSample ((49151 : ℚ) / 65536) = 24574 := by
    simp only [encodeSample, truncToInt]
    rw [min_eq_right (by norm_num), max_eq_right (by norm_num),
      if_neg (by norm_num), if_neg (by norm_num)]
    exact Int.floor_eq_iff.mpr (by norm_num)
  constructor
  · rw [decodeChunk_encodeFrame]
    simp only [List.map_cons, List.map_nil, hE]
    norm_num
  · rw [show (12287 : ℚ) / 16384 - 49151 / 65536 = -(3 / 65536) by norm_num,
      abs_neg, abs_of_pos (by norm_num)]
    norm_num

/-- Claim C2: after every `playChunk` scheduling step the cursor
`nextStartTime` is at least the current clock time, and when the cursor had
fallen behind the clock the chunk is scheduled at the clock time. -/
theorem claim_c2_cursor_invariant (st : AudioPlayerState) (t : ℚ)
    (chunk : String) (st' : AudioPlayerState) (s : ℚ)
    (hrate : 0 < st.sampleRate)
    (hp : AudioPlayer.playChunk st t chunk = .ok (st', s)) :
    t ≤ st'.nextStartTime ∧ (st.nextStartTime < t → s = t) := by
  unfold AudioPlayer.playChunk at hp
  cases hdec : decodeChunk chunk with
  | error e => rw [hdec] at hp; exact absurd hp (by simp)
  | ok floatData =>
      rw [hdec] at hp
      simp only [Except.ok.injEq, Prod.mk.injEq] at hp
      obtain ⟨rfl, rfl⟩ := hp
      have hdur : (0 : ℚ) ≤ (floatData.length : ℚ) / st.sampleRate :=
        div_nonneg (by positivity) (le_of_lt hrate)
      constructor
      · have h1 := scheduleChunk_fst_ge_time st.nextStartTime t
          ((floatData.length : ℚ) / st.sampleRate)
        have h2 := scheduleChunk_snd_eq st.nextStartTime t
          ((floatData.length : ℚ) / st.sampleRate)
        show t ≤ (scheduleChunk st.nextStartTime t
          ((floatData.length : ℚ) / st.sampleRate)).2
        linarith
      · intro hlt
        show (scheduleChunk st.nextStartTime t
          ((floatData.length : ℚ) / st.sampleRate)).1 = t
        simp only [scheduleChunk]
        rw [if_pos hlt]

/-- Witness for C2: a fresh 24 kHz player, clock at 5, chunk "AAA="
(one zero sample). -/
theorem claim_c2_cursor_invariant_witness :
    (5 : ℚ) ≤ (AudioPlayerState.mk 24000 (5 + 1 / 24000)
      [(5, 1 / 24000)]).nextStartTime ∧
    ((AudioPlayer.new 24000).nextStartTime < 5 → (5 : ℚ) = 5) :=
  claim_c2_cursor_invariant (AudioPlayer.new 24000) 5 "AAA="
    (AudioPlayerState.mk 24000 (5 + 1 / 24000) [(5, 1 / 24000)]) 5
    (by norm_num [AudioPlayer.new]) (by rfl)

/-- Each scheduled start is at least the advanced cursor of the previous
step: `runSchedule` start times step by at least the previous duration. -/
theorem runSchedule_step_le (l : List (ℚ × ℚ)) :
    ∀ (c : ℚ) (j : ℕ), j + 1 < l.length →
      (runSchedule c l).getD j 0 + (l.getD j (0, 0)).2 ≤
        (runSchedule c l).getD (j + 1) 0 := by
  induction l with
  | nil => intro c j h; simp at h
  | cons p tl ih =>
      intro c j hj
      obtain ⟨t, d⟩ := p
      cases j with
      | zero =>
          cases tl with
          | nil => simp at hj
          | cons q tl2 =>
              obtain ⟨t2, d2⟩ := q
              simp only [runSchedule, List.getD_cons_zero, List.getD_cons_succ]
              have h1 := scheduleChunk_fst_ge_cursor (scheduleChunk c t d).2 t2 d2
              have h2 := scheduleChunk_snd_eq c t d
              linarith
      | succ n =>
          simp only [runSchedule, List.getD_cons_succ]
          exact ih _ n (by simpa using hj)

/-- Claim C3: for chunks played in order with non-negative durations and no
stop in between, start times are monotonically non-decreasing and each
start is at least the previous start plus the previous duration. -/
theorem claim_c3_ordering (cursor : ℚ) (chunks : List (ℚ × ℚ))
    (hd : ∀ p ∈ chunks, 0 ≤ p.2) (i : ℕ) (hi : i + 1 < chunks.length) :
    (runSchedule cursor chunks).getD i 0 + (chunks.getD i (0, 0)).2 ≤
      (runSchedule cursor chunks).getD (i + 1) 0 ∧
    (runSchedule cursor chunks).getD i 0 ≤
      (runSchedule cursor chunks).getD (i + 1) 0 := by
  have h1 := runSchedule_step_le chunks cursor i hi
  refine ⟨h1, ?_⟩
  have hmem : chunks.getD i (0, 0) ∈ chunks := by
    rw [List.getD_eq_getElem _ _ (by omega)]
    exact List.getElem_mem _
  have h2 := hd _ hmem
  linarith

/-- Witness for C3: two chunks of duration 1 at clock times 0 and 2. -/
theorem claim_c3_ordering_witness :
    ((runSchedule 0 [((0 : ℚ), (1 : ℚ)), (2, 1)]).getD 0 0 +
        ([((0 : ℚ), (1 : ℚ)), (2, 1)].getD 0 (0, 0)).2 ≤
      (runSchedule 0 [((0 : ℚ), (1 : ℚ)), (2, 1)]).getD 1 0) ∧
    ((runSchedule 0 [((0 : ℚ), (1 : ℚ)), (2, 1)]).getD 0 0 ≤
      (runSchedule 0 [((0 : ℚ), (1 : ℚ)), (2, 1)]).getD 1 0) :=
  claim_c3_ordering 0 [(0, 1), (2, 1)] (by norm_num) 0 (by norm_num)

/-- Claim C4: `stop()` discards every scheduled chunk, resets the cursor to
0, and any subsequent `playChunk` at a non-negative clock time is scheduled
at exactly the current clock time. -/
theorem claim_c4_hard_stop (st : AudioPlayerState) (t : ℚ) (ht : 0 ≤ t)
    (chunk : String) (st' : AudioPlayerState) (s : ℚ)
    (hp : AudioPlayer.playChunk (AudioPlayer.stop st) t chunk = .ok (st', s)) :
    (AudioPlayer.stop st).nextStartTime = 0 ∧
    (AudioPlayer.stop st).scheduled = [] ∧ s = t := by
  refine ⟨rfl, rfl, ?_⟩
  unfold AudioPlayer.playChunk at hp
  cases hdec : decodeChunk chunk with
  | error e => rw [hdec] at hp; exact absurd hp (by simp)
  | ok floatData =>
      rw [hdec] at hp
      simp only [Except.ok.injEq, Prod.mk.injEq] at hp
      obtain ⟨-, rfl⟩ := hp
      show (scheduleChunk (AudioPlayer.stop st).nextStartTime t
        ((floatData.length : ℚ) / (AudioPlayer.stop st).sampleRate)).1 = t
      simp only [AudioPlayer.stop, scheduleChunk]
      split
      · rfl
      · linarith [not_lt.mp (by assumption : ¬ (0 : ℚ) < t)]

/-- Witness for C4: stopping a player mid-schedule, then playing "AAA=" at
clock 5. -/
theorem claim_c4_hard_stop_witness :
    (AudioPlayer.stop (AudioPlayerState.mk 24000 99 [(1, 2)])).nextStartTime = 0 ∧
    (AudioPlayer.stop (AudioPlayerState.mk 24000 99 [(1, 2)])).scheduled = [] ∧
    (5 : ℚ) = 5 :=
  claim_c4_hard_stop (AudioPlayerState.mk 24000 99 [(1, 2)]) 5 (by norm_num)
    "AAA=" (AudioPlayerState.mk 24000 (5 + 1 / 24000) [(5, 1 / 24000)]) 5
    (by rfl)

/-- Claim C5: happy-path state machine. Starting from idle passes through
ringing, connecting, listening; an inbound audio fragment moves listening to
speaking; an inbound turn-complete moves speaking back to listening; and
ending the session reaches idle from every state. -/
theorem claim_c5_happy_path :
    (∀ st : SessionState, st.status = CallStatus.idle →
      ((handleEvent st SessionEvent.userStart).1).status = CallStatus.ringing) ∧
    (∀ st : SessionState, st.status = CallStatus.ringing →
      ((handleEvent st SessionEvent.ringElapsed).1).status = CallStatus.connecting) ∧
    (∀ st : SessionState, st.status = CallStatus.connecting →
      ((handleEvent st SessionEvent.opened).1).status = CallStatus.listening) ∧
    (∀ (st : SessionState) (d : String), st.status = CallStatus.listening →
      ((handleEvent st (SessionEvent.message ⟨some d, [], false, false⟩)).1).status =
        CallStatus.speaking) ∧
    (∀ st : SessionState, st.status = CallStatus.speaking →
      ((handleEvent st (SessionEvent.message ⟨none, [], false, true⟩)).1).status =
        CallStatus.listening) ∧
    (∀ st : SessionState,
      ((handleEvent st SessionEvent.userEnd).1).status = CallStatus.idle) := by
  refine ⟨fun st _ => rfl, fun st _ => rfl, fun st _ => rfl, ?_,
    fun st _ => rfl, fun st => rfl⟩
  intro st d _
  simp only [handleEvent, handleMessage]
  cases hdec : decodeChunk d with
  | error e => rfl
  | ok fd => rfl

/-- Witness for C5 along concrete states. -/
theorem claim_c5_happy_path_witness :
    ((handleEvent ⟨CallStatus.idle, false, false, ""⟩
      SessionEvent.userStart).1).status = CallStatus.ringing ∧
    ((handleEvent ⟨CallStatus.ringing, false, false, ""⟩
      SessionEvent.ringElapsed).1).status = CallStatus.connecting ∧
    ((handleEvent ⟨CallStatus.connecting, false, false, ""⟩
      SessionEvent.opened).1).status = CallStatus.listening ∧
    ((handleEvent ⟨CallStatus.listening, true, true, ""⟩
      (SessionEvent.message ⟨some "AAA=", [], false, false⟩)).1).status =
        CallStatus.speaking ∧
    ((handleEvent ⟨CallStatus.speaking, true, true, ""⟩
      (SessionEvent.message ⟨none, [], false, true⟩)).1).status =
        CallStatus.listening ∧
    ((handleEvent ⟨CallStatus.speaking, true, true, ""⟩
      SessionEvent.userEnd).1).status = CallStatus.idle :=
  ⟨claim_c5_happy_path.1 _ rfl,
   claim_c5_happy_path.2.1 _ rfl,
   claim_c5_happy_path.2.2.1 _ rfl,
   claim_c5_happy_path.2.2.2.1 _ "AAA=" rfl,
   claim_c5_happy_path.2.2.2.2.1 _ rfl,
   claim_c5_happy_path.2.2.2.2.2 _⟩

/-- Claim C6: from speaking, an inbound "interrupted" message moves the
state to listening and requests exactly one playback stop. -/
theorem claim_c6_interruption (st : SessionState)
    (h : st.status = CallStatus.speaking) :
    ((handleEvent st (SessionEvent.message ⟨none, [], true, false⟩)).1).status =
      CallStatus.listening ∧
    ((handleEvent st (SessionEvent.message ⟨none, [], true, false⟩)).2).count
      Effect.playerStop = 1 := by
  exact ⟨rfl, rfl⟩

/-- Witness for C6 at a concrete speaking state. -/
theorem claim_c6_interruption_witness :
    ((handleEvent ⟨CallStatus.speaking, true, true, ""⟩
      (SessionEvent.message ⟨none, [], true, false⟩)).1).status =
      CallStatus.listening ∧
    ((handleEvent ⟨CallStatus.speaking, true, true, ""⟩
      (SessionEvent.message ⟨none, [], true, false⟩)).2).count
      Effect.playerStop = 1 :=
  claim_c6_interruption ⟨CallStatus.speaking, true, true, ""⟩ rfl

/-- Claim C7, amended: inbound text fragments are not inspected for a
leading `[LANG:XX]` control tag and no detected language is recorded; the
entire trimmed fragment — tag included — becomes the transcript and is what
reaches sentiment analysis. -/
theorem claim_c7_no_strip (st : SessionState) (t : String)
    (h : st.status = CallStatus.listening) (ht : jsTrim t ≠ "") :
    ((handleMessage st ⟨none, [t], false, false⟩).1).transcript = jsTrim t ∧
    (handleMessage st ⟨none, [t], false, false⟩).2 =
      analyzeSentiment (jsTrim t) := by
  have hne : t ≠ "" := by
    intro he
    apply ht
    rw [he]
    rfl
  have hstep : handleTextPart st.status false st t =
      ({ st with transcript := jsTrim t }, analyzeSentiment (jsTrim t)) := by
    unfold handleTextPart
    rw [if_pos hne, if_pos (Or.inr rfl), if_pos ht]
  have hmsg : handleMessage st ⟨none, [t], false, false⟩ =
      ({ st with transcript := jsTrim t }, analyzeSentiment (jsTrim t)) := by
    simp only [handleMessage, processRest, List.foldl_cons, List.foldl_nil,
      hstep, Bool.false_eq_true, if_false, List.nil_append]
  rw [hmsg]
  exact ⟨rfl, rfl⟩

/-- Witness for C7 at the spec's example input. -/
theorem claim_c7_no_strip_witness :
    ((handleMessage ⟨CallStatus.listening, true, true, ""⟩
      ⟨none, ["[LANG:ES] Hola, ¿cómo estás?"], false, false⟩).1).transcript =
      jsTrim "[LANG:ES] Hola, ¿cómo estás?" ∧
    (handleMessage ⟨CallStatus.listening, true, true, ""⟩
      ⟨none, ["[LANG:ES] Hola, ¿cómo estás?"], false, false⟩).2 =
      analyzeSentiment (jsTrim "[LANG:ES] Hola, ¿cómo estás?") :=
  claim_c7_no_strip ⟨CallStatus.listening, true, true, ""⟩
    "[LANG:ES] Hola, ¿cómo estás?" rfl (by decide)

/-- Counterexample to C7 as stated: on the spec's example input the code
stores the fragment with the `[LANG:XX]` tag still present — the tag is not
stripped, no language is recorded, and the transcript is not the claimed
tag-free text. -/
theorem claim_c7_counterexample :
    ((handleMessage ⟨CallStatus.listening, true, true, ""⟩
      ⟨none, ["[LANG:ES] Hola, ¿cómo estás?"], false, false⟩).1).transcript =
      "[LANG:ES] Hola, ¿cómo estás?" ∧
    "[LANG:ES] Hola, ¿cómo estás?" ≠ "Hola, ¿cómo estás?" := by
  constructor
  · decide
  · decide

/-- Claim C8: a chunk whose decoded byte length is odd raises the decode
error, leaves the player untouched, does not end the session (the handler
sets speaking, drops the fragment and skips the rest of that message), and
later well-formed chunks still play. -/
theorem claim_c8_decode_error (chunk : String) (codes : List ℕ)
    (ha : atob chunk = some codes) (hodd : codes.length % 2 = 1) :
    decodeChunk chunk = .error DecodeError.misaligned ∧
    (∀ (p : AudioPlayerState) (t : ℚ),
      AudioPlayer.playChunk p t chunk = .error DecodeError.misaligned) ∧
    (∀ st : SessionState,
      handleMessage st ⟨some chunk, [], false, false⟩ =
        ({ st with status := CallStatus.speaking }, [])) ∧
    (∀ (p : AudioPlayerState) (t : ℚ) (c : String) (out : List ℚ),
      decodeChunk c = .ok out →
      ∃ p2 s, AudioPlayer.playChunk p t c = .ok (p2, s)) := by
  have hdec : decodeChunk chunk = .error DecodeError.misaligned := by
    unfold decodeChunk
    rw [ha]
    simp only [List.length_map]
    rw [if_neg (by omega)]
  refine ⟨hdec, ?_, ?_, ?_⟩
  · intro p t
    unfold AudioPlayer.playChunk
    rw [hdec]
  · intro st
    simp only [handleMessage, hdec]
  · intro p t c out hok
    unfold AudioPlayer.playChunk
    rw [hok]
    exact ⟨_, _, rfl⟩

/-- Witness for C8 with the 3-byte chunk "AAAA". -/
theorem claim_c8_decode_error_witness :
    decodeChunk "AAAA" = .error DecodeError.misaligned ∧
    AudioPlayer.playChunk (AudioPlayer.new 24000) 0 "AAAA" =
      .error DecodeError.misaligned :=
  ⟨(claim_c8_decode_error "AAAA" [0, 0, 0] rfl rfl).1,
   (claim_c8_decode_error "AAAA" [0, 0, 0] rfl rfl).2.1
     (AudioPlayer.new 24000) 0⟩

/-- Claim C9, amended: `getVolume` is total, always non-negative, and
returns 0 whenever the analyser is unset — in particular before `start()`.
(After `stop()` the analyser field is still set, so 0 is not guaranteed;
see the counterexample.) -/
theorem claim_c9_volume_safe (st : AudioProcessorState) (hostData : List ℕ) :
    0 ≤ AudioProcessor.getVolume st hostData ∧
    (st.hasAnalyser = false → AudioProcessor.getVolume st hostData = 0) ∧
    AudioProcessor.getVolume AudioProcessor.initial hostData = 0 := by
  refine ⟨?_, ?_, rfl⟩
  · unfold AudioProcessor.getVolume
    split
    · exact le_refl 0
    · apply div_nonneg
      · apply List.sum_nonneg
        intro a ha
        simp only [List.mem_map] at ha
        obtain ⟨b, -, rfl⟩ := ha
        exact Nat.cast_nonneg b
      · exact Nat.cast_nonneg _
  · intro h
    unfold AudioProcessor.getVolume
    rw [if_pos (by rw [h])]

/-- Witness for C9 at concrete states. -/
theorem claim_c9_volume_safe_witness :
    0 ≤ AudioProcessor.getVolume
      (AudioProcessor.stop (AudioProcessor.start AudioProcessor.initial)) [100] ∧
    AudioProcessor.getVolume AudioProcessor.initial [100] = 0 :=
  ⟨(claim_c9_volume_safe _ [100]).1,
   (claim_c9_volume_safe AudioProcessor.initial [100]).2.1 rfl⟩

/-- Counterexample to C9 as stated: after `start()` then `stop()` the
analyser reference is still set, so `getVolume` reports whatever frequency
data the host still holds — here a frame of value 100 — instead of the
claimed 0. -/
theorem claim_c9_counterexample :
    AudioProcessor.getVolume
      (AudioProcessor.stop (AudioProcessor.start AudioProcessor.initial))
      [100] = 100 ∧
    (100 : ℚ) ≠ 0 := by
  constructor
  · unfold AudioProcessor.getVolume AudioProcessor.stop AudioProcessor.start
    norm_num
  · norm_num

/-- Bounds of every sample produced by the `Int16Array` reinterpretation of
byte pairs below 256. -/
theorem pcmOfBytes_mem_bounds :
    ∀ (bs : List ℕ), (∀ b ∈ bs, b < 256) →
      ∀ n ∈ pcmOfBytes bs, -32768 ≤ n ∧ n ≤ 32767
  | [], _, n, hn => by simp [pcmOfBytes] at hn
  | [b], _, n, hn => by simp [pcmOfBytes] at hn
  | b0 :: b1 :: rest, h, n, hn => by
      simp only [pcmOfBytes, List.mem_cons] at hn
      rcases hn with rfl | hn
      · have hb0 : b0 < 256 := h b0 (by simp)
        have hb1 : b1 < 256 := h b1 (by simp)
        simp only [int16OfPair]
        split <;> omega
      · exact pcmOfBytes_mem_bounds rest (fun b hb => h b (by simp [hb])) n hn

/-- Claim C10: every sample produced by the decode phase of `playChunk` is
a signed 16-bit integer divided by 32768, hence lies in [-1, 32767/32768],
whatever the chunk's byte content. -/
theorem claim_c10_range (chunk : String) (out : List ℚ)
    (h : decodeChunk chunk = .ok out) :
    ∀ x ∈ out, (∃ n : ℤ, -32768 ≤ n ∧ n ≤ 32767 ∧ x = (n : ℚ) / 32768) ∧
      -1 ≤ x ∧ x ≤ 32767 / 32768 := by
  unfold decodeChunk at h
  cases hA : atob chunk with
  | none => rw [hA] at h; exact absurd h (by simp)
  | some codes =>
      rw [hA] at h
      simp only [List.length_map] at h
      by_cases hpar : codes.length % 2 = 0
      · rw [if_pos hpar] at h
        simp only [Except.ok.injEq] at h
        subst h
        intro x hx
        simp only [List.mem_map] at hx
        obtain ⟨n, hn, rfl⟩ := hx
        have hbytes : ∀ b ∈ codes.map (· % 256), b < 256 := by
          intro b hb
          simp only [List.mem_map] at hb
          obtain ⟨c, -, rfl⟩ := hb
          exact Nat.mod_lt c (by norm_num)
        obtain ⟨hb1, hb2⟩ := pcmOfBytes_mem_bounds _ hbytes n hn
        have hq1 : (-32768 : ℚ) ≤ (n : ℚ) := by exact_mod_cast hb1
        have hq2 : ((n : ℚ)) ≤ 32767 := by exact_mod_cast hb2
        have h32 : (0 : ℚ) < 32768 := by norm_num
        refine ⟨⟨n, hb1, hb2, rfl⟩, ?_, ?_⟩
        · rw [le_div_iff h32]
          linarith
        · rw [div_le_div_iff h32 h32]
          nlinarith
      · rw [if_neg hpar] at h
        exact absurd h (by simp)

/-- Witness for C10 at the one-sample chunk "AAA=". -/
theorem claim_c10_range_witness :
    (∃ n : ℤ, -32768 ≤ n ∧ n ≤ 32767 ∧ (0 : ℚ) = (n : ℚ) / 32768) ∧
    -1 ≤ (0 : ℚ) ∧ (0 : ℚ) ≤ 32767 / 32768 := by
  have hd : decodeChunk "AAA=" = .ok [0] := by
    unfold decodeChunk
    rw [show atob "AAA=" = some [0, 0] from rfl]
    norm_num [pcmOfBytes, int16OfPair]
  exact claim_c10_range "AAA=" [0] hd 0 (by simp)

end Serenity
